import Mathlib

/-!
Shallow embedding of `gimmedatwave.py`, the CAEN WaveDump binary decoder.

A file is modelled as its byte content, `List Nat` (each entry one byte,
little-endian multi-byte values).  Record elements are kept as their raw
little-endian byte values (for the uint16 families this is the sample value;
for the float32 family it is the raw bit pattern — no claim in scope
interprets the float value).  Python exceptions are modelled as `Option`
(`none` = the operation raised) or `Except DecodeError`.
-/

namespace GDW

/-- Source constant `HEADER_SIZE = 6`: number of header elements. -/
def HEADER_SIZE : Nat := 6

/-- Byte width of one header element (`HEADER_DTYPE = np.uint32`). -/
def HEADER_ITEMSIZE : Nat := 4

/-- Source enum `DigitizerFamily` with members X742, X740, X730, X725. -/
inductive DigitizerFamily
  | X742
  | X740
  | X730
  | X725
deriving DecidableEq

/-- Source `_DIGITIZER_FAMILY_HEADER_LENGTH_MAP`: every family maps to `HEADER_SIZE`. -/
def familyHeaderLength : DigitizerFamily → Nat := fun _ => HEADER_SIZE

/-- Source `_DIGITIZER_FAMILY_RECORD_LENGTH_MAP`.  Not consulted by
`Parser.__init__` (the record length is derived or overridden); kept for
completeness of the table. -/
def familyRecordLength : DigitizerFamily → Nat
  | .X742 => 1024
  | .X740 => 1024
  | .X730 => 1024
  | .X725 => 1030

/-- Byte width of one record element, from `_DIGITIZER_FAMILY_RECORD_DTYPE_MAP`:
`np.float32` (4 bytes) for X742, `np.uint16` (2 bytes) for the rest. -/
def familyRecordItemsize : DigitizerFamily → Nat
  | .X742 => 4
  | _ => 2

/-- Source `_DIGITIZER_FAMILY_SAMPLE_RATE_MAP` (MHz; X740 is 62.5). -/
def familySampleRate : DigitizerFamily → ℚ
  | .X742 => 5000
  | .X740 => 125 / 2
  | .X730 => 500
  | .X725 => 250

/-- Source dataclass `CAENHeader`: the six decoded uint32 header fields. -/
structure CAENHeader where
  event_size : Nat
  board_id : Nat
  pattern : Nat
  channel_mask : Nat
  event_counter : Nat
  trigger_time_tag : Nat
deriving DecidableEq

/-- Source dataclass `CAENEvent`: header, record samples (raw little-endian
element values), shared sample-time sequence, and the event id. -/
structure CAENEvent where
  header : CAENHeader
  record : List Nat
  sample_times : List ℚ
  id : Nat
deriving DecidableEq

/-- Little-endian read of `w` bytes starting at byte offset `off`
(missing bytes read as 0; callers guard availability where the Python
code would fail instead). -/
def readLE (bytes : List Nat) : Nat → Nat → Nat
  | _, 0 => 0
  | off, w + 1 => bytes.getD off 0 + 256 * readLE bytes (off + 1) w

/-- Decode the six uint32 header fields at byte offset `off`
(the `('header', np.uint32, 6)` part of the compound dtype, unpacked into
`CAENHeader(*...)`). -/
def decodeHeader (bytes : List Nat) (off : Nat) : CAENHeader :=
  { event_size := readLE bytes off 4
    board_id := readLE bytes (off + 4) 4
    pattern := readLE bytes (off + 8) 4
    channel_mask := readLE bytes (off + 12) 4
    event_counter := readLE bytes (off + 16) 4
    trigger_time_tag := readLE bytes (off + 20) 4 }

/-- Decode `n` record elements of byte width `w` starting at byte offset `off`
(the `('record', record_dtype, record_length)` part of the compound dtype). -/
def decodeRecord (bytes : List Nat) (off n w : Nat) : List Nat :=
  (List.range n).map fun i => readLE bytes (off + i * w) w

/-- Python `IndexError` raised on out-of-range access (reported as
"beyond end of file" by the source). -/
inductive DecodeError
  | indexOutOfRange
deriving DecidableEq

/-- State of a constructed `Parser` object: the fields set by `__init__`.
`n_entries` and `sample_times` are stored precomputed, as in the source. -/
structure Parser where
  file : List Nat
  header_length : Nat
  record_itemsize : Nat
  record_length : Nat
  sample_rate : ℚ
  sample_times : List ℚ
  n_entries : Nat
  cur_idx : Nat
deriving DecidableEq

/-- The byte stride of one event, `self.dtype.itemsize` of the compound dtype
built by `_create_dtype`: header bytes plus record bytes. -/
def Parser.stride (p : Parser) : Nat :=
  p.header_length * HEADER_ITEMSIZE + p.record_length * p.record_itemsize

/-- Source `Parser._calc_record_length`: read the first event's header and
back-compute the sample count from `header[0]`.  `np.fromfile` yields only
complete uint32 elements, so `header[0]` exists iff the file has at least 4
bytes; with fewer the subscript raises `IndexError` (`none` here).  Python's
`int((header[0] - header_bytes) / itemsize)` is float division truncated
toward zero, hence `Int.tdiv`; the subtraction is promoted to a signed value. -/
def calcRecordLength (file : List Nat) (record_itemsize : Nat) : Option Int :=
  if HEADER_ITEMSIZE ≤ file.length then
    some (Int.tdiv ((readLE file 0 4 : Int) - (HEADER_SIZE * HEADER_ITEMSIZE : Nat))
      (record_itemsize : Int))
  else
    none

/-- Source expression `record_length or self._calc_record_length()`:
`None` and `0` are both falsy in Python, so an explicit `0` override also
falls through to the derivation. -/
def resolveRecordLength (file : List Nat) (record_itemsize : Nat) :
    Option Nat → Option Int
  | some n => if n = 0 then calcRecordLength file record_itemsize else some (n : Int)
  | none => calcRecordLength file record_itemsize

/-- Source expression `sample_rate or MAP[family]` (`0` falls through). -/
def resolveSampleRate (fam : DigitizerFamily) : Option ℚ → ℚ
  | some r => if r = 0 then familySampleRate fam else r
  | none => familySampleRate fam

/-- The `Parser` record built at the end of `__init__` once the record length
`rlN` has been resolved.  `sample_times = np.arange(record_length) / sample_rate * 1e6`;
`n_entries = int(file_size / dtype.itemsize)` (floor, since both are
nonnegative and exactly representable at any realistic file size). -/
def mkParserAux (file : List Nat) (fam : DigitizerFamily)
    (record_itemsizeO : Option Nat) (sample_rateO : Option ℚ) (rlN : Nat) : Parser :=
  { file := file
    header_length := HEADER_SIZE
    record_itemsize := record_itemsizeO.getD (familyRecordItemsize fam)
    record_length := rlN
    sample_rate := resolveSampleRate fam sample_rateO
    sample_times :=
      (List.range rlN).map fun i => (i : ℚ) / resolveSampleRate fam sample_rateO * 1000000
    n_entries :=
      file.length /
        (HEADER_SIZE * HEADER_ITEMSIZE + rlN * (record_itemsizeO.getD (familyRecordItemsize fam)))
    cur_idx := 0 }

/-- Source `Parser.__init__` for an existing file whose bytes are `file`
(the `os.path.isfile` check is outside the model: the byte content *is* the
existing file).  `none` models the constructor raising: either the
record-length derivation failed on a sub-4-byte file (`IndexError`), or the
derived length is negative and the numpy dtype construction would fail. -/
def mkParser (file : List Nat) (fam : DigitizerFamily) (record_lengthO : Option Nat)
    (record_itemsizeO : Option Nat) (sample_rateO : Option ℚ) : Option Parser :=
  match resolveRecordLength file (record_itemsizeO.getD (familyRecordItemsize fam))
      record_lengthO with
  | none => none
  | some rl =>
    if rl < 0 then none
    else some (mkParserAux file fam record_itemsizeO sample_rateO rl.toNat)

/-- One decoded event at byte offset `off`, labelled with id `idx`: the shared
record-splitting step used by every decode path (`CAENEvent(CAENHeader(*u['header']),
u['record'], self.sample_times, idx)`). -/
def Parser.readAt (p : Parser) (off idx : Nat) : CAENEvent :=
  { header := decodeHeader p.file off
    record := decodeRecord p.file (off + p.header_length * HEADER_ITEMSIZE)
      p.record_length p.record_itemsize
    sample_times := p.sample_times
    id := idx }

/-- Source `Parser.get_event`: `np.fromfile(file, dtype, count=1,
offset=index*itemsize)` yields one complete item iff a full stride of bytes is
available at that offset; otherwise the array is empty, the header subscript
raises `IndexError`, and the method re-raises it ("Index beyond end of file"). -/
def Parser.get_event (p : Parser) (index : Nat) : Option CAENEvent :=
  if index * p.stride + p.stride ≤ p.file.length then
    some (p.readAt (index * p.stride) index)
  else
    none

/-- Source `Parser.get_all_events(start)`: `np.fromfile(file, dtype, count=-1,
offset=start)` — `start` is a *byte* offset — decodes every complete stride
from there (trailing partial bytes dropped), and `enumerate` assigns each
event its position in the returned list as id. -/
def Parser.get_all_events (p : Parser) (start : Nat) : List CAENEvent :=
  (List.range ((p.file.length - start) / p.stride)).map fun i =>
    p.readAt (start + i * p.stride) i

/-- Number of iterations of the `while index < e` loop of `read_dat` when the
index starts at `start` and advances by `step` each iteration.  For `step = 0`
and `start < e` the source loops forever (re-reading until EOF raises);
that divergent case is modelled as 0 iterations and excluded from every
theorem below (they assume `0 < step`). -/
def readDatIters (start e step : Nat) : Nat :=
  if step = 0 then 0 else (e - start + step - 1) / step

/-- Source `Parser.read_dat(start, stop, step)`.  Mirrors the source exactly:
the up-front check `stop is not None and stop > n_entries` raises; then
`end = stop or n_entries - 1` (an explicit `stop=0` is falsy and also defaults);
the loop reads *sequentially from the start of the file* — the k-th
`np.fromfile(f, dtype, count=1)` call consumes bytes `[k*stride, (k+1)*stride)`
regardless of `start` and `step` — while labelling the yielded event with the
loop index `start + k*step`. -/
def Parser.read_dat (p : Parser) (start : Nat) (stop : Option Nat) (step : Nat) :
    Except DecodeError (List CAENEvent) :=
  match stop with
  | some s =>
    if s > p.n_entries then
      .error .indexOutOfRange
    else
      .ok ((List.range (readDatIters start (if s = 0 then p.n_entries - 1 else s) step)).map
        fun k => p.readAt (k * p.stride) (start + k * step))
  | none =>
    .ok ((List.range (readDatIters start (p.n_entries - 1) step)).map
      fun k => p.readAt (k * p.stride) (start + k * step))

/-- Source `Parser.read_next`: raise (`none`, state unchanged) when the cursor
has reached `n_entries`; otherwise `get_event(cur_idx)` and only then
`cur_idx += 1`.  A raise inside `get_event` would propagate before the
increment, hence the unchanged state in that branch too. -/
def Parser.read_next (p : Parser) : Option CAENEvent × Parser :=
  if p.cur_idx ≥ p.n_entries then
    (none, p)
  else
    match p.get_event p.cur_idx with
    | some e => (some e, { p with cur_idx := p.cur_idx + 1 })
    | none => (none, p)

/-- Calling `read_next` `n` times in sequence, collecting each call's result. -/
def iterateReadNext : Parser → Nat → List (Option CAENEvent) × Parser
  | p, 0 => ([], p)
  | p, n + 1 =>
    let r := p.read_next
    let rest := iterateReadNext r.2 n
    (r.1 :: rest.1, rest.2)

/-! Concrete fixture: a four-event X730 file (record length overridden to 1
sample, so the stride is 6·4 + 1·2 = 26 bytes) with two trailing partial
bytes.  Event `k` has `event_size = 26`, `board_id = k`, `event_counter = k`
and the single record sample `100 + k`. -/

/-- One 26-byte event of the fixture file. -/
def testRec (k : Nat) : List Nat :=
  [26, 0, 0, 0, k, 0, 0, 0, 0, 0, 0, 0, 0, 0, 0, 0, k, 0, 0, 0, 0, 0, 0, 0, 100 + k, 0]

/-- The fixture file: four events plus two trailing bytes (106 bytes). -/
def fileW : List Nat :=
  testRec 0 ++ testRec 1 ++ testRec 2 ++ testRec 3 ++ [7, 7]

/-- The parser state `mkParser fileW X730 (some 1) none none` produces. -/
def parserW : Parser :=
  mkParserAux fileW DigitizerFamily.X730 none none 1

/-! Invariants established by `__init__` and preserved by every operation. -/

/-- Geometry invariant of a constructed parser: six header elements and an
entry count equal to the file size floor-divided by the stride. -/
def Parser.wf (p : Parser) : Prop :=
  p.header_length = HEADER_SIZE ∧ p.n_entries = p.file.length / p.stride

theorem mkParser_shape {file : List Nat} {fam : DigitizerFamily}
    {rlO riO : Option Nat} {srO : Option ℚ} {p : Parser}
    (h : mkParser file fam rlO riO srO = some p) :
    ∃ rlN, p = mkParserAux file fam riO srO rlN := by
  unfold mkParser at h
  cases hr : resolveRecordLength file (riO.getD (familyRecordItemsize fam)) rlO with
  | none => rw [hr] at h; exact absurd h (by simp)
  | some rl =>
    rw [hr] at h
    by_cases hneg : rl < 0
    · simp [hneg] at h
    · simp only [hneg, if_false] at h
      exact ⟨rl.toNat, (Option.some.injEq _ _ ▸ h).symm⟩

theorem mkParserAux_wf (file : List Nat) (fam : DigitizerFamily)
    (riO : Option Nat) (srO : Option ℚ) (rlN : Nat) :
    (mkParserAux file fam riO srO rlN).wf :=
  ⟨rfl, rfl⟩

theorem mkParser_wf {file : List Nat} {fam : DigitizerFamily}
    {rlO riO : Option Nat} {srO : Option ℚ} {p : Parser}
    (h : mkParser file fam rlO riO srO = some p) :
    p.wf ∧ p.cur_idx = 0 ∧ p.file = file := by
  obtain ⟨rlN, rfl⟩ := mkParser_shape h
  exact ⟨mkParserAux_wf file fam riO srO rlN, rfl, rfl⟩

theorem stride_pos (p : Parser) (h6 : p.header_length = HEADER_SIZE) : 0 < p.stride := by
  unfold Parser.stride
  rw [h6]
  unfold HEADER_SIZE HEADER_ITEMSIZE
  omega

/-- A valid index decodes: the full stride fits, so `np.fromfile` yields one item. -/
theorem get_event_some (p : Parser) (hwf : p.wf) {i : Nat} (hi : i < p.n_entries) :
    p.get_event i = some (p.readAt (i * p.stride) i) := by
  have hpos : 0 < p.stride := stride_pos p hwf.1
  have hiq : i + 1 ≤ p.file.length / p.stride := by
    rw [← hwf.2]; omega
  have hle : (i + 1) * p.stride ≤ p.file.length := (Nat.le_div_iff_mul_le hpos).mp hiq
  have hfit : i * p.stride + p.stride ≤ p.file.length := by
    have h2 : (i + 1) * p.stride = i * p.stride + p.stride := by ring
    omega
  unfold Parser.get_event
  rw [if_pos hfit]

/-- An index at or past the entry count fails: fewer than one stride remains. -/
theorem get_event_none (p : Parser) (hwf : p.wf) {i : Nat} (hi : p.n_entries ≤ i) :
    p.get_event i = none := by
  have hpos : 0 < p.stride := stride_pos p hwf.1
  have hiq : p.file.length / p.stride < i + 1 := by
    rw [← hwf.2]; omega
  have hlt : p.file.length < (i + 1) * p.stride := (Nat.div_lt_iff_lt_mul hpos).mp hiq
  have hnofit : ¬(i * p.stride + p.stride ≤ p.file.length) := by
    have h2 : (i + 1) * p.stride = i * p.stride + p.stride := by ring
    omega
  unfold Parser.get_event
  rw [if_neg hnofit]

/-! Claim theorems. -/

/-- C1: for every opened file, `count()` (`n_entries`) equals exactly
`floor(file_size_bytes / stride)` with stride = header element count ×
header element width + record length × record element width, for every file
size including non-multiples of the stride (the trailing partial record is
excluded by the floor). -/
theorem count_is_floor_filesize_div_stride (file : List Nat) (fam : DigitizerFamily)
    (rlO riO : Option Nat) (srO : Option ℚ) (p : Parser)
    (h : mkParser file fam rlO riO srO = some p) :
    p.n_entries = file.length /
      (p.header_length * HEADER_ITEMSIZE + p.record_length * p.record_itemsize) := by
  obtain ⟨rlN, rfl⟩ := mkParser_shape h
  rfl

/-- Witness for C1 on the concrete fixture: a 106-byte file with stride 26
(four full events plus two trailing bytes) reports four entries. -/
theorem count_is_floor_filesize_div_stride_witness :
    mkParser fileW DigitizerFamily.X730 (some 1) none none = some parserW ∧
    fileW.length = 106 ∧ parserW.n_entries = 4 ∧
    parserW.n_entries = fileW.length /
      (parserW.header_length * HEADER_ITEMSIZE + parserW.record_length * parserW.record_itemsize) :=
  ⟨rfl, by decide, by decide,
    count_is_floor_filesize_div_stride fileW DigitizerFamily.X730 (some 1) none none parserW rfl⟩

/-- C2: for every index below `count()`, `get_event` succeeds and the returned
event's `id` equals the requested index; for every index at or beyond
`count()` it fails (IndexError, modelled by `none`). -/
theorem get_event_id_and_bounds (file : List Nat) (fam : DigitizerFamily)
    (rlO riO : Option Nat) (srO : Option ℚ) (p : Parser) (i : Nat)
    (h : mkParser file fam rlO riO srO = some p) :
    (i < p.n_entries → ∃ e, p.get_event i = some e ∧ e.id = i) ∧
    (p.n_entries ≤ i → p.get_event i = none) := by
  have hwf := (mkParser_wf h).1
  constructor
  · intro hi
    exact ⟨p.readAt (i * p.stride) i, get_event_some p hwf hi, rfl⟩
  · intro hi
    exact get_event_none p hwf hi

/-- Witness for C2 on the fixture: index 2 of a four-entry file succeeds with
id 2, and indices 4 and 5 fail. -/
theorem get_event_id_and_bounds_witness :
    ((2 < parserW.n_entries → ∃ e, parserW.get_event 2 = some e ∧ e.id = 2) ∧
      (parserW.n_entries ≤ 2 → parserW.get_event 2 = none)) ∧
    ((4 < parserW.n_entries → ∃ e, parserW.get_event 4 = some e ∧ e.id = 4) ∧
      (parserW.n_entries ≤ 4 → parserW.get_event 4 = none)) ∧
    ((5 < parserW.n_entries → ∃ e, parserW.get_event 5 = some e ∧ e.id = 5) ∧
      (parserW.n_entries ≤ 5 → parserW.get_event 5 = none)) :=
  ⟨get_event_id_and_bounds fileW DigitizerFamily.X730 (some 1) none none parserW 2 rfl,
    get_event_id_and_bounds fileW DigitizerFamily.X730 (some 1) none none parserW 4 rfl,
    get_event_id_and_bounds fileW DigitizerFamily.X730 (some 1) none none parserW 5 rfl⟩

theorem read_next_stop (p : Parser) (hge : p.n_entries ≤ p.cur_idx) :
    p.read_next = (none, p) := by
  unfold Parser.read_next
  rw [if_pos (by omega)]

theorem read_next_success (p : Parser) (hwf : p.wf) (hlt : p.cur_idx < p.n_entries) :
    p.read_next = (some (p.readAt (p.cur_idx * p.stride) p.cur_idx),
      { p with cur_idx := p.cur_idx + 1 }) := by
  unfold Parser.read_next
  rw [if_neg (by omega), get_event_some p hwf hlt]

theorem range_map_shift (c n : Nat) :
    (List.range (n + 1)).map (fun k => (some (c + k) : Option Nat))
      = some c :: (List.range n).map (fun k => (some (c + 1 + k) : Option Nat)) := by
  rw [List.range_succ_eq_map, List.map_cons, List.map_map, Nat.add_zero]
  congr 1
  apply List.map_congr_left
  intro a _
  simp only [Function.comp_apply]
  congr 1
  omega

/-- Ids produced by running `read_next` through the remaining entries and one
call past the end: each in-range call yields the cursor position as id, the
final call fails. -/
theorem iterateReadNext_ids (n : Nat) :
    ∀ p : Parser, p.wf → p.cur_idx + n = p.n_entries →
      (iterateReadNext p (n + 1)).1.map (Option.map CAENEvent.id)
        = (List.range n).map (fun k => some (p.cur_idx + k)) ++ [none] := by
  induction n with
  | zero =>
    intro p hwf hc
    simp [iterateReadNext, read_next_stop p (by omega)]
  | succ n ih =>
    intro p hwf hc
    have hlt : p.cur_idx < p.n_entries := by omega
    have hstep := read_next_success p hwf hlt
    have hrec : iterateReadNext p (n + 1 + 1)
        = (p.read_next.1 :: (iterateReadNext p.read_next.2 (n + 1)).1,
          (iterateReadNext p.read_next.2 (n + 1)).2) := rfl
    have hih := ih { p with cur_idx := p.cur_idx + 1 } hwf
      (by show p.cur_idx + 1 + n = p.n_entries; omega)
    rw [hrec, hstep]
    simp only [List.map_cons]
    rw [hih]
    rw [range_map_shift]
    simp [Parser.readAt]

/-- C3: from a fresh parser, `read_next` called `count()` times yields events
with ids 0, 1, ..., count()-1 in order, and the following call fails
(IndexError, modelled by `none`). -/
theorem read_next_yields_ids_then_fails (file : List Nat) (fam : DigitizerFamily)
    (rlO riO : Option Nat) (srO : Option ℚ) (p : Parser)
    (h : mkParser file fam rlO riO srO = some p) :
    (iterateReadNext p (p.n_entries + 1)).1.map (Option.map CAENEvent.id)
      = (List.range p.n_entries).map some ++ [none] := by
  obtain ⟨hwf, hc0, -⟩ := mkParser_wf h
  have hmain := iterateReadNext_ids p.n_entries p hwf (by omega)
  rw [hc0] at hmain
  rw [hmain]
  simp

/-- Witness for C3 on the fixture: five calls on the fresh four-entry parser. -/
theorem read_next_yields_ids_then_fails_witness :
    (iterateReadNext parserW (parserW.n_entries + 1)).1.map (Option.map CAENEvent.id)
      = (List.range parserW.n_entries).map some ++ [none] :=
  read_next_yields_ids_then_fails fileW DigitizerFamily.X730 (some 1) none none parserW rfl

/-- C4 is refuted by the code: `read_dat(start=1, stop=4, step=2)` on the
fixture (whose four records hold the samples 100, 101, 102, 103) yields the
first two *sequential* records — samples 100 and 101 — labelled with ids 1
and 3, instead of the records actually stored at indices 1 and 3 (samples
101 and 103, exhibited via `get_event`): the generator neither seeks to
`start` nor skips `step` records, contradicting its own docstring. -/
theorem read_dat_ignores_start_and_step :
    (parserW.read_dat 1 (some 4) 2).toOption.map (fun l => l.map fun e => (e.id, e.record))
      = some [(1, [100]), (3, [101])]
    ∧ (parserW.get_event 1).map CAENEvent.record = some [101]
    ∧ (parserW.get_event 3).map CAENEvent.record = some [103] := by
  decide

/-- C5: with `stop` omitted, `read_dat(start=0, step=1)` stops at the default
bound `count()-1` and yields exactly the events with ids 0, ..., count()-2
(each being the event stored at that index), one short of the last valid
index. -/
theorem read_dat_default_stop_off_by_one (file : List Nat) (fam : DigitizerFamily)
    (rlO riO : Option Nat) (srO : Option ℚ) (p : Parser)
    (h : mkParser file fam rlO riO srO = some p) :
    ∃ l, p.read_dat 0 none 1 = .ok l
      ∧ l.map CAENEvent.id = List.range (p.n_entries - 1)
      ∧ ∀ k, k < p.n_entries - 1 → l[k]? = p.get_event k := by
  have hwf := (mkParser_wf h).1
  have hiters : readDatIters 0 (p.n_entries - 1) 1 = p.n_entries - 1 := by
    unfold readDatIters
    simp
  refine ⟨_, rfl, ?_, ?_⟩
  · rw [hiters, List.map_map]
    have hfun : (CAENEvent.id ∘ fun k => p.readAt (k * p.stride) (0 + k * 1))
        = fun k => k := by
      funext k
      simp [Parser.readAt]
    rw [hfun]
    exact List.map_id' _
  · intro k hk
    rw [hiters, List.getElem?_map, List.getElem?_range hk,
      get_event_some p hwf (by omega : k < p.n_entries)]
    simp

/-- Witness for C5 on the fixture: the default-stop iteration over the
four-entry file yields ids 0, 1, 2 only. -/
theorem read_dat_default_stop_off_by_one_witness :
    ∃ l, parserW.read_dat 0 none 1 = .ok l
      ∧ l.map CAENEvent.id = List.range (parserW.n_entries - 1)
      ∧ ∀ k, k < parserW.n_entries - 1 → l[k]? = parserW.get_event k :=
  read_dat_default_stop_off_by_one fileW DigitizerFamily.X730 (some 1) none none parserW rfl

/-- C8: an explicit `stop` strictly greater than `count()` makes `read_dat`
fail up front (IndexError), before yielding any event. -/
theorem read_dat_stop_beyond_count_errors (p : Parser) (start step s : Nat)
    (hs : p.n_entries < s) :
    p.read_dat start (some s) step = .error .indexOutOfRange := by
  simp only [Parser.read_dat]
  rw [if_pos hs]

/-- Witness for C8 on the fixture: `stop = 5` on the four-entry file errors. -/
theorem read_dat_stop_beyond_count_errors_witness :
    parserW.n_entries < 5 ∧
    parserW.read_dat 0 (some 5) 1 = .error .indexOutOfRange :=
  ⟨by decide, read_dat_stop_beyond_count_errors parserW 0 1 5 (by decide)⟩

/-- Loop-count sanity for the `read_dat` model: for a positive step the
`while index < e` loop performs exactly `readDatIters start e step`
iterations — iteration `k` exists iff its loop index `start + k·step` is
below the bound. -/
theorem readDatIters_spec (start e step k : Nat) (hs : 0 < step) :
    k < readDatIters start e step ↔ start + k * step < e := by
  unfold readDatIters
  rw [if_neg (by omega)]
  constructor
  · intro hk
    have hk' : k + 1 ≤ (e - start + step - 1) / step := hk
    have h2 := (Nat.le_div_iff_mul_le hs).mp hk'
    have h3 : (k + 1) * step = k * step + step := by ring
    omega
  · intro hk
    have h3 : (k + 1) * step = k * step + step := by ring
    have h2 : (k + 1) * step ≤ e - start + step - 1 := by omega
    exact (Nat.le_div_iff_mul_le hs).mpr h2

/-- C6: round-trip of the record-length derivation — when no override is
supplied and the file's first header element reads
`header_bytes + L·w` (with `w` the record element width), the resolver
derives exactly `L`. -/
theorem record_length_roundtrip (file : List Nat) (w L : Nat) (hw : 0 < w)
    (hlen : HEADER_ITEMSIZE ≤ file.length)
    (h0 : readLE file 0 4 = HEADER_SIZE * HEADER_ITEMSIZE + L * w) :
    resolveRecordLength file w none = some (L : Int) := by
  show calcRecordLength file w = some (L : Int)
  unfold calcRecordLength
  rw [if_pos hlen, h0]
  congr 1
  have hcast : ((HEADER_SIZE * HEADER_ITEMSIZE + L * w : Nat) : Int)
      - ((HEADER_SIZE * HEADER_ITEMSIZE : Nat) : Int) = (L : Int) * (w : Int) := by
    push_cast
    ring
  rw [hcast, Int.mul_tdiv_cancel _ (Int.natCast_ne_zero.mpr hw.ne')]

/-- Witness for C6: a four-byte file whose first header element encodes
24 + 3·2 = 30 derives record length 3 at element width 2. -/
theorem record_length_roundtrip_witness :
    (0 < 2 ∧ HEADER_ITEMSIZE ≤ ([30, 0, 0, 0] : List Nat).length ∧
      readLE [30, 0, 0, 0] 0 4 = HEADER_SIZE * HEADER_ITEMSIZE + 3 * 2) ∧
    resolveRecordLength [30, 0, 0, 0] 2 none = some (3 : Int) :=
  ⟨⟨by decide, by decide, by decide⟩,
    record_length_roundtrip [30, 0, 0, 0] 2 3 (by decide) (by decide) (by decide)⟩

/-- C7 counterexample: an 8-byte file — shorter than one full 24-byte header —
opens successfully with no record-length override (the derivation proceeds
from the first header element alone, here 30, deriving record length 3)
instead of failing as the claim requires. -/
theorem short_header_open_succeeds :
    ([30, 0, 0, 0, 0, 0, 0, 0] : List Nat).length < HEADER_SIZE * HEADER_ITEMSIZE ∧
    (mkParser [30, 0, 0, 0, 0, 0, 0, 0] DigitizerFamily.X730 none none none).isSome = true := by
  decide

/-- C7 amended: with no record-length override, opening fails only when the
existing file is shorter than a single 4-byte header element — `np.fromfile`
then yields zero complete elements and the `header[0]` subscript raises
(an `IndexError`, not a dedicated truncation error).  A file holding at
least one element but fewer bytes than a full header is not detected as
truncated: the resolver proceeds from the first element alone. -/
theorem open_fails_below_one_header_element (file : List Nat) (fam : DigitizerFamily)
    (riO : Option Nat) (srO : Option ℚ) (hshort : file.length < HEADER_ITEMSIZE) :
    mkParser file fam none riO srO = none := by
  have hcalc : calcRecordLength file (riO.getD (familyRecordItemsize fam)) = none := by
    unfold calcRecordLength
    rw [if_neg (by omega)]
  unfold mkParser
  rw [show resolveRecordLength file (riO.getD (familyRecordItemsize fam)) none
      = calcRecordLength file (riO.getD (familyRecordItemsize fam)) from rfl, hcalc]

/-- Witness for C7's amended statement: a two-byte file fails to open. -/
theorem open_fails_below_one_header_element_witness :
    ([5, 1] : List Nat).length < HEADER_ITEMSIZE ∧
    mkParser [5, 1] DigitizerFamily.X725 none none none = none :=
  ⟨by decide,
    open_fails_below_one_header_element [5, 1] DigitizerFamily.X725 none none (by decide)⟩

/-- C9: `get_all_events(start)` assigns ids positionally from 0 — one id per
decoded stride after byte offset `start` — regardless of `start`; for an
aligned `start = j·stride`, position `i` holds the same header and record as
`get_event (j+i)` but carries id `i`, not the absolute file index `j+i`. -/
theorem get_all_events_positional_ids (file : List Nat) (fam : DigitizerFamily)
    (rlO riO : Option Nat) (srO : Option ℚ) (p : Parser) (start j i : Nat)
    (h : mkParser file fam rlO riO srO = some p) (hji : j + i < p.n_entries) :
    (p.get_all_events start).map CAENEvent.id
      = List.range ((p.file.length - start) / p.stride)
    ∧ ((p.get_all_events (j * p.stride))[i]?).map CAENEvent.id = some i
    ∧ ((p.get_all_events (j * p.stride))[i]?).map CAENEvent.header
        = (p.get_event (j + i)).map CAENEvent.header
    ∧ ((p.get_all_events (j * p.stride))[i]?).map CAENEvent.record
        = (p.get_event (j + i)).map CAENEvent.record
    ∧ (p.get_event (j + i)).map CAENEvent.id = some (j + i) := by
  obtain ⟨hwf, -, -⟩ := mkParser_wf h
  have hpos : 0 < p.stride := stride_pos p hwf.1
  have hmul : (j + i + 1) * p.stride ≤ p.file.length := by
    rw [← Nat.le_div_iff_mul_le hpos, ← hwf.2]
    omega
  have hsplit : (j + i + 1) * p.stride = j * p.stride + (i + 1) * p.stride := by ring
  have hin : i < (p.file.length - j * p.stride) / p.stride := by
    have hsub : (i + 1) * p.stride ≤ p.file.length - j * p.stride := by omega
    have := (Nat.le_div_iff_mul_le hpos).mpr hsub
    omega
  have hcell : (p.get_all_events (j * p.stride))[i]?
      = some (p.readAt (j * p.stride + i * p.stride) i) := by
    unfold Parser.get_all_events
    rw [List.getElem?_map, List.getElem?_range hin, Option.map_some']
  have hget : p.get_event (j + i) = some (p.readAt ((j + i) * p.stride) (j + i)) :=
    get_event_some p hwf hji
  refine ⟨?_, ?_, ?_, ?_, ?_⟩
  · unfold Parser.get_all_events
    rw [List.map_map]
    have hfun : (CAENEvent.id ∘ fun k => p.readAt (start + k * p.stride) k)
        = fun k => k := by
      funext a
      simp [Parser.readAt]
    rw [hfun]
    exact List.map_id' _
  · rw [hcell]
    simp [Parser.readAt]
  · rw [hcell, hget]
    simp only [Option.map_some']
    congr 1
    simp [Parser.readAt, Nat.add_mul]
  · rw [hcell, hget]
    simp only [Option.map_some']
    congr 1
    simp [Parser.readAt, Nat.add_mul]
  · rw [hget]
    simp [Parser.readAt]

/-- Witness for C9 on the fixture: an unaligned byte start (5) still ids from
0, and position 2 of the events after one stride (26 bytes) matches the
content of `get_event 3` while carrying id 2. -/
theorem get_all_events_positional_ids_witness :
    (1 + 2 < parserW.n_entries) ∧
    ((parserW.get_all_events 5).map CAENEvent.id
        = List.range ((parserW.file.length - 5) / parserW.stride)
      ∧ ((parserW.get_all_events (1 * parserW.stride))[2]?).map CAENEvent.id = some 2
      ∧ ((parserW.get_all_events (1 * parserW.stride))[2]?).map CAENEvent.header
          = (parserW.get_event (1 + 2)).map CAENEvent.header
      ∧ ((parserW.get_all_events (1 * parserW.stride))[2]?).map CAENEvent.record
          = (parserW.get_event (1 + 2)).map CAENEvent.record
      ∧ (parserW.get_event (1 + 2)).map CAENEvent.id = some (1 + 2)) :=
  ⟨by decide,
    get_all_events_positional_ids fileW DigitizerFamily.X730 (some 1) none none parserW
      5 1 2 rfl (by decide)⟩

/-- C10: `read_next` is atomic on failure — a failing call returns the parser
unchanged (cursor included), and every call, successful or failing, preserves
the cursor invariant `cur_idx ≤ count()` (the lower bound 0 is inherent in
the `Nat` cursor); a failing call can therefore be retried from the same
state. -/
theorem read_next_error_atomic (p : Parser) (hinv : p.cur_idx ≤ p.n_entries) :
    (p.read_next.1 = none → p.read_next.2 = p)
    ∧ p.read_next.2.cur_idx ≤ p.read_next.2.n_entries
    ∧ p.read_next.2.n_entries = p.n_entries := by
  unfold Parser.read_next
  by_cases hge : p.cur_idx ≥ p.n_entries
  · rw [if_pos hge]
    exact ⟨fun _ => rfl, hinv, rfl⟩
  · rw [if_neg hge]
    cases hg : p.get_event p.cur_idx with
    | some e =>
      refine ⟨fun hcontra => (Option.some_ne_none e hcontra).elim, ?_, rfl⟩
      show p.cur_idx + 1 ≤ p.n_entries
      omega
    | none =>
      exact ⟨fun _ => rfl, hinv, rfl⟩

/-- Witness for C10 on the fixture parser (cursor 0 of 4 entries). -/
theorem read_next_error_atomic_witness :
    parserW.cur_idx ≤ parserW.n_entries ∧
    ((parserW.read_next.1 = none → parserW.read_next.2 = parserW)
      ∧ parserW.read_next.2.cur_idx ≤ parserW.read_next.2.n_entries
      ∧ parserW.read_next.2.n_entries = parserW.n_entries) :=
  ⟨by decide, read_next_error_atomic parserW (by decide)⟩

end GDW
